import Mathlib

/-!
Verification development for the jetconf REST server dispatcher
(`jetconf/rest_server.py`).

The embedding models:
* Python `dict` / `OrderedDict` semantics over association lists
  (`dictInsert`, `dictLookup`, `dictPop`, `orderedDictOf`);
* `str.split(sep)[0]` path trimming (`pySplit`, `url_path_of`);
* the route table `HandlerList` with `register_handler`,
  `register_default_handler` and `get_handler`;
* the per-connection session `H2Protocol`: its `reqs_waiting_upload`
  map, and the event-processing functions `http_handle_upload`,
  `handle_get_delete` and `data_received` (the latter restricted to the
  event loop over decoded events, with transport writes out of scope).

Handlers are opaque (a type parameter `H`), and body bytes are opaque
(a type parameter `B`).  Observable effects (handler invocations and
logged warnings) are recorded as an explicit list of `Action`s.
-/

namespace Jetconf

section Dict

variable {K V : Type} [DecidableEq K]

/-- Python `d[k] = v` on a `dict` represented as an association list:
if the key is present its value is updated in place, otherwise the
binding is appended at the end (insertion order is preserved, as for
`dict` / `OrderedDict`). -/
def dictInsert : List (K × V) → K → V → List (K × V)
  | [], k, v => [(k, v)]
  | p :: d, k, v => if p.1 = k then (k, v) :: d else p :: dictInsert d k v

/-- Python `d[k]` / `d.get(k)`: the value bound to `k`, if any. -/
def dictLookup : List (K × V) → K → Option V
  | [], _ => none
  | p :: d, k => if p.1 = k then some p.2 else dictLookup d k

/-- Python `d.pop(k)`: on success, the value bound to `k` together with
the dictionary with that binding removed; `none` models the `KeyError`
case. -/
def dictPop : List (K × V) → K → Option (V × List (K × V))
  | [], _ => none
  | p :: d, k =>
    if p.1 = k then some (p.2, d)
    else
      match dictPop d k with
      | some (v, d2) => some (v, p :: d2)
      | none => none

/-- Python `OrderedDict(pairs)`: the dictionary built by inserting the
pairs in order, so on duplicate keys the last value wins. -/
def orderedDictOf (l : List (K × V)) : List (K × V) :=
  l.foldl (fun d p => dictInsert d p.1 p.2) []

end Dict

/-- Python `s.split(sep)` for a one-character separator: the maximal
chunks of `s` between occurrences of `sep` (always a non-empty list;
`"".split(sep) = [""]`). -/
def pySplit (sep : Char) : List Char → List (List Char)
  | [] => [[]]
  | c :: cs =>
    let r := pySplit sep cs
    if c = sep then [] :: r else (c :: r.headI) :: r.tail

/-- `url_path = headers[":path"].split("?")[0]` from
`http_handle_upload` / `handle_get_delete`: the part of the path before
the first `?`. -/
def url_path_of (s : String) : String :=
  ⟨(pySplit '?' s.data).headI⟩

/-- The header mapping of a request: header names to values. -/
abbrev Headers := List (String × String)

/-- `HandlerCondition` = `HandlerConditionT`: a predicate over
(method, path). -/
abbrev HandlerCondition := String → String → Bool

/-- The route table: an ordered list of (condition, handler) entries
and an optional default handler (`None` until registered). -/
structure HandlerList (H : Type) where
  handlers : List (HandlerCondition × H)
  default_handler : Option H

/-- `HandlerList.register_handler`: appends an entry to the list. -/
def HandlerList.register_handler {H : Type} (hl : HandlerList H)
    (condition : HandlerCondition) (handler : H) : HandlerList H :=
  { hl with handlers := hl.handlers ++ [(condition, handler)] }

/-- `HandlerList.register_default_handler`: sets the default handler
(last write wins). -/
def HandlerList.register_default_handler {H : Type} (hl : HandlerList H)
    (handler : H) : HandlerList H :=
  { hl with default_handler := some handler }

/-- `HandlerList.get_handler`: scans `handlers` in order and returns
the handler of the first entry whose condition holds; otherwise the
default handler (which is `none` when never registered). -/
def HandlerList.get_handler {H : Type} (hl : HandlerList H)
    (method path : String) : Option H :=
  match hl.handlers.find? (fun h => h.1 method path) with
  | some h => some h.2
  | none => hl.default_handler

/-- The decoded h2 events `data_received` dispatches on.  `B` is the
type of body bytes. -/
inductive Event (B : Type) where
  | requestReceived (stream_id : Nat) (headers : List (String × String))
  | dataReceived (stream_id : Nat) (data : B)
  | remoteSettingsChanged
deriving DecidableEq

/-- Observable effects of event processing: a handler invocation with
a body (`h(self, headers, data, stream_id)`), a bodyless handler
invocation (`h(self, headers, stream_id)`), or a logged warning. -/
inductive Action (H B : Type) where
  | dispatchBody (handler : H) (headers : Headers) (data : B) (stream_id : Nat)
  | dispatchNoBody (handler : H) (headers : Headers) (stream_id : Nat)
  | warning (msg : String)
deriving DecidableEq

/-- The per-connection mutable state of `H2Protocol` relevant to
dispatch: the `reqs_waiting_upload` map from stream id to stored
headers. -/
structure H2State where
  reqs_waiting_upload : List (Nat × Headers)
deriving DecidableEq

section Protocol

variable {H B : Type}

/-- `H2Protocol.http_handle_upload(data, stream_id)`: pop the pending
headers for the stream (a missing entry is swallowed as a no-op), trim
the path at the first `?`, resolve a handler and invoke it when one is
found.  `hl` is the global `h2_handlers` table. -/
def http_handle_upload (hl : HandlerList H) (st : H2State) (data : B)
    (stream_id : Nat) : H2State × List (Action H B) :=
  match dictPop st.reqs_waiting_upload stream_id with
  | none => (st, [])
  | some (headers, rest) =>
    let url_path := url_path_of ((dictLookup headers ":path").getD "")
    match hl.get_handler ((dictLookup headers ":method").getD "") url_path with
    | some h => (⟨rest⟩, [.dispatchBody h headers data stream_id])
    | none => (⟨rest⟩, [])

/-- `H2Protocol.handle_get_delete(headers, stream_id)`: trim the path
at the first `?`, resolve a handler, invoke it when one is found.  The
session state is not touched, so only the actions are returned. -/
def handle_get_delete (hl : HandlerList H) (headers : Headers)
    (stream_id : Nat) : List (Action H B) :=
  let url_path := url_path_of ((dictLookup headers ":path").getD "")
  match hl.get_handler ((dictLookup headers ":method").getD "") url_path with
  | some h => [.dispatchNoBody h headers stream_id]
  | none => []

/-- One iteration of the event loop in `H2Protocol.data_received`:
the `isinstance` dispatch on a single decoded event. -/
def processEvent (hl : HandlerList H) (st : H2State) :
    Event B → H2State × List (Action H B)
  | .requestReceived stream_id raw =>
    let headers := orderedDictOf raw
    let http_method := (dictLookup headers ":method").getD ""
    if http_method ∈ ["GET", "DELETE"] then
      (st, handle_get_delete hl headers stream_id)
    else if http_method ∈ ["PUT", "POST"] then
      (⟨dictInsert st.reqs_waiting_upload stream_id headers⟩, [])
    else
      (st, [.warning http_method])
  | .dataReceived stream_id data => http_handle_upload hl st data stream_id
  | .remoteSettingsChanged => (st, [])

/-- The event loop of `H2Protocol.data_received`: the decoded events
are processed in order, threading the session state and accumulating
the observable actions. -/
def data_received (hl : HandlerList H) (st : H2State)
    (events : List (Event B)) : H2State × List (Action H B) :=
  events.foldl
    (fun acc ev => ((processEvent hl acc.1 ev).1, acc.2 ++ (processEvent hl acc.1 ev).2))
    (st, [])

end Protocol

/-- The stream id an event belongs to (`none` for connection-level
events such as settings changes). -/
def eventStream {B : Type} : Event B → Option Nat
  | .requestReceived stream_id _ => some stream_id
  | .dataReceived stream_id _ => some stream_id
  | .remoteSettingsChanged => none

/-- The stream id a recorded action belongs to (`none` for logged
warnings). -/
def actionStream {H B : Type} : Action H B → Option Nat
  | .dispatchBody _ _ _ stream_id => some stream_id
  | .dispatchNoBody _ _ stream_id => some stream_id
  | .warning _ => none

/-! ### Dictionary lemmas -/

section DictLemmas

variable {K V : Type} [DecidableEq K]

lemma dictLookup_insert (d : List (K × V)) (k a : K) (v : V) :
    dictLookup (dictInsert d k v) a = if a = k then some v else dictLookup d a := by
  induction d with
  | nil =>
    by_cases h : a = k
    · subst h; simp [dictInsert, dictLookup]
    · have h2 : ¬ k = a := fun hh => h hh.symm
      simp [dictInsert, dictLookup, h, h2]
  | cons p d ih =>
    by_cases hpk : p.1 = k
    · by_cases hak : a = k
      · subst hak; simp [dictInsert, dictLookup, hpk]
      · have h2 : ¬ k = a := fun hh => hak hh.symm
        have h3 : ¬ p.1 = a := fun hh => hak (hh ▸ hpk)
        simp [dictInsert, dictLookup, hpk, hak, h2, h3]
    · by_cases hpa : p.1 = a
      · have hak : ¬ a = k := fun hh => hpk (hpa.trans hh)
        simp [dictInsert, dictLookup, hpk, hpa, hak]
      · simp [dictInsert, dictLookup, hpk, hpa, ih]

lemma dictLookup_eq_none_iff (d : List (K × V)) (k : K) :
    dictLookup d k = none ↔ k ∉ d.map Prod.fst := by
  induction d with
  | nil => simp [dictLookup]
  | cons p d ih =>
    by_cases h : p.1 = k
    · subst h
      simp [dictLookup]
    · have h2 : ¬ k = p.1 := fun hh => h hh.symm
      rw [dictLookup, if_neg h, ih]
      simp [h2]

lemma dictPop_fst (d : List (K × V)) (k : K) :
    (dictPop d k).map Prod.fst = dictLookup d k := by
  induction d with
  | nil => simp [dictPop, dictLookup]
  | cons p d ih =>
    by_cases h : p.1 = k
    · simp [dictPop, dictLookup, h]
    · simp only [dictPop, dictLookup, h, if_false, if_neg h]
      cases hd : dictPop d k with
      | none => simpa [hd] using ih
      | some vd => simpa [hd] using ih

lemma dictPop_lookup_ne {d d2 : List (K × V)} {k a : K} {v : V}
    (hpop : dictPop d k = some (v, d2)) (hak : a ≠ k) :
    dictLookup d2 a = dictLookup d a := by
  induction d generalizing d2 with
  | nil => simp [dictPop] at hpop
  | cons p d ih =>
    by_cases h : p.1 = k
    · simp only [dictPop, h, if_true] at hpop
      obtain ⟨hv, hd⟩ := Prod.mk.injEq .. ▸ Option.some.injEq .. ▸ hpop
      subst hd
      have hpa : ¬ p.1 = a := fun hh => hak ((hh.symm.trans h))
      simp [dictLookup, hpa]
    · simp only [dictPop, h, if_false] at hpop
      cases hd : dictPop d k with
      | none => rw [hd] at hpop; exact absurd hpop (by simp)
      | some vd =>
        rw [hd] at hpop
        obtain ⟨v2, dd⟩ := vd
        simp only [Option.some.injEq, Prod.mk.injEq] at hpop
        obtain ⟨hv, hd2⟩ := hpop
        subst hd2
        by_cases hpa : p.1 = a
        · simp [dictLookup, hpa]
        · simp [dictLookup, hpa, ih (hv ▸ hd)]

lemma dictPop_lookup_self {d d2 : List (K × V)} {k : K} {v : V}
    (hnd : (d.map Prod.fst).Nodup) (hpop : dictPop d k = some (v, d2)) :
    dictLookup d2 k = none := by
  induction d generalizing d2 with
  | nil => simp [dictPop] at hpop
  | cons p d ih =>
    simp only [List.map_cons, List.nodup_cons] at hnd
    by_cases h : p.1 = k
    · simp only [dictPop, h, if_true, Option.some.injEq, Prod.mk.injEq] at hpop
      obtain ⟨hv, hd⟩ := hpop
      subst hd
      exact (dictLookup_eq_none_iff d k).mpr (h ▸ hnd.1)
    · simp only [dictPop, h, if_false] at hpop
      cases hd : dictPop d k with
      | none => rw [hd] at hpop; exact absurd hpop (by simp)
      | some vd =>
        rw [hd] at hpop
        obtain ⟨v2, dd⟩ := vd
        simp only [Option.some.injEq, Prod.mk.injEq] at hpop
        obtain ⟨hv, hd2⟩ := hpop
        subst hd2
        simp [dictLookup, h, ih hnd.2 (hv ▸ hd)]

lemma mem_keys_dictInsert (d : List (K × V)) (k a : K) (v : V) :
    a ∈ (dictInsert d k v).map Prod.fst ↔ a ∈ d.map Prod.fst ∨ a = k := by
  induction d with
  | nil => simp [dictInsert]
  | cons p d ih =>
    by_cases h : p.1 = k
    · subst h
      simp only [dictInsert, if_true, List.map_cons, List.mem_cons]
      tauto
    · simp only [dictInsert, h, if_false, List.map_cons, List.mem_cons, ih]
      tauto

lemma keys_nodup_dictInsert {d : List (K × V)} (k : K) (v : V)
    (hnd : (d.map Prod.fst).Nodup) :
    ((dictInsert d k v).map Prod.fst).Nodup := by
  induction d with
  | nil => simp [dictInsert]
  | cons p d ih =>
    simp only [List.map_cons, List.nodup_cons] at hnd
    by_cases h : p.1 = k
    · simp only [dictInsert, h, if_true, List.map_cons, List.nodup_cons]
      exact ⟨h ▸ hnd.1, hnd.2⟩
    · simp only [dictInsert, h, if_false, List.map_cons, List.nodup_cons]
      refine ⟨?_, ih hnd.2⟩
      rw [mem_keys_dictInsert]
      rintro (hm | hm)
      · exact hnd.1 hm
      · exact h hm

lemma orderedDictOf_concat (l : List (K × V)) (p : K × V) :
    orderedDictOf (l ++ [p]) = dictInsert (orderedDictOf l) p.1 p.2 := by
  simp [orderedDictOf, List.foldl_append]

end DictLemmas

/-! ### Generic list lemmas -/

lemma find?_eq_get_of_first {α : Type} (l : List α) (p : α → Bool) (i : Nat)
    (hi : i < l.length) (hmatch : p (l.get ⟨i, hi⟩) = true)
    (hfirst : ∀ j (hj : j < i), p (l.get ⟨j, Nat.lt_trans hj hi⟩) = false) :
    l.find? p = some (l.get ⟨i, hi⟩) := by
  induction l generalizing i with
  | nil => exact absurd hi (Nat.not_lt_zero i)
  | cons x l ih =>
    cases i with
    | zero => exact List.find?_cons_of_pos _ hmatch
    | succ i =>
      have hx : p x = false := hfirst 0 (Nat.succ_pos i)
      rw [List.find?_cons_of_neg _ (by simp [hx])]
      exact ih i (Nat.lt_of_succ_lt_succ hi) hmatch
        (fun j hj => hfirst (j + 1) (Nat.succ_lt_succ hj))

/-! ### Path-splitting lemmas -/

lemma pySplit_ne_nil (sep : Char) (l : List Char) : pySplit sep l ≠ [] := by
  cases l with
  | nil => simp [pySplit]
  | cons c cs =>
    by_cases h : c = sep <;> simp [pySplit, h]

lemma pySplit_headI_spec (sep : Char) (l : List Char) :
    sep ∉ (pySplit sep l).headI ∧
      (l = (pySplit sep l).headI ∨
        ∃ r, l = (pySplit sep l).headI ++ sep :: r) := by
  induction l with
  | nil => simp [pySplit]
  | cons c cs ih =>
    by_cases h : c = sep
    · subst h
      refine ⟨by simp [pySplit], Or.inr ⟨cs, by simp [pySplit]⟩⟩
    · have hhead : (pySplit sep (c :: cs)).headI = c :: (pySplit sep cs).headI := by
        simp [pySplit, h]
      constructor
      · rw [hhead]
        intro hmem
        rcases List.mem_cons.mp hmem with hm | hm
        · exact h hm.symm
        · exact ih.1 hm
      · rw [hhead]
        rcases ih.2 with hcs | ⟨r, hcs⟩
        · exact Or.inl (by rw [← hcs])
        · exact Or.inr ⟨r, by rw [List.cons_append, ← hcs]⟩

lemma url_path_of_data (s : String) :
    (url_path_of s).data = (pySplit '?' s.data).headI := rfl

/-! ### Protocol lemmas -/

section ProtocolLemmas

variable {H B : Type}

lemma dictPop_of_lookup {K V : Type} [DecidableEq K] {d : List (K × V)} {k : K} {v : V}
    (h : dictLookup d k = some v) : ∃ d2, dictPop d k = some (v, d2) := by
  cases hp : dictPop d k with
  | none =>
    have hfst := dictPop_fst d k
    rw [hp, h] at hfst
    simp at hfst
  | some vd =>
    obtain ⟨v2, d2⟩ := vd
    have hfst := dictPop_fst d k
    rw [hp, h] at hfst
    simp only [Option.map_some', Option.some.injEq] at hfst
    exact ⟨d2, by rw [hfst]⟩

lemma upload_no_entry (hl : HandlerList H) (st : H2State) (d : B) (S : Nat)
    (h : dictLookup st.reqs_waiting_upload S = none) :
    http_handle_upload hl st d S = (st, []) := by
  have hpop : dictPop st.reqs_waiting_upload S = none := by
    have hfst := dictPop_fst st.reqs_waiting_upload S
    rw [h] at hfst
    exact Option.map_eq_none'.mp hfst
  simp [http_handle_upload, hpop]

lemma processEvent_put_post (hl : HandlerList H) (st : H2State) (S : Nat)
    (raw : List (String × String))
    (hm : (dictLookup (orderedDictOf raw) ":method").getD ""
      ∈ (["PUT", "POST"] : List String)) :
    processEvent hl st (Event.requestReceived S raw : Event B)
      = (⟨dictInsert st.reqs_waiting_upload S (orderedDictOf raw)⟩, []) := by
  have hne : (dictLookup (orderedDictOf raw) ":method").getD ""
      ∉ (["GET", "DELETE"] : List String) := by
    simp only [List.mem_cons, List.mem_singleton, List.not_mem_nil, or_false] at hm ⊢
    rcases hm with h | h <;> rw [h] <;> decide
  simp [processEvent, hne, hm]

lemma processEvent_lookup_of_other_stream (hl : HandlerList H) (st : H2State)
    (ev : Event B) (S : Nat) (hev : eventStream ev ≠ some S) :
    dictLookup (processEvent hl st ev).1.reqs_waiting_upload S
      = dictLookup st.reqs_waiting_upload S := by
  cases ev with
  | requestReceived sid raw =>
    have hS : ¬ S = sid := fun hh => hev (by simp [eventStream, hh])
    by_cases h1 : (dictLookup (orderedDictOf raw) ":method").getD ""
        ∈ (["GET", "DELETE"] : List String)
    · simp [processEvent, h1]
    · by_cases h2 : (dictLookup (orderedDictOf raw) ":method").getD ""
          ∈ (["PUT", "POST"] : List String)
      · simp [processEvent, h1, h2, dictLookup_insert, hS]
      · simp [processEvent, h1, h2]
  | dataReceived sid d =>
    have hS : S ≠ sid := fun hh => hev (by simp [eventStream, hh])
    show dictLookup (http_handle_upload hl st d sid).1.reqs_waiting_upload S = _
    cases hpop : dictPop st.reqs_waiting_upload sid with
    | none => simp [http_handle_upload, hpop]
    | some vd =>
      obtain ⟨hdrs, rest⟩ := vd
      have hrest : dictLookup rest S = dictLookup st.reqs_waiting_upload S :=
        dictPop_lookup_ne hpop hS
      cases hg : hl.get_handler ((dictLookup hdrs ":method").getD "")
          (url_path_of ((dictLookup hdrs ":path").getD "")) with
      | none => simp [http_handle_upload, hpop, hg, hrest]
      | some h => simp [http_handle_upload, hpop, hg, hrest]
  | remoteSettingsChanged => simp [processEvent]

lemma processEvent_pending_isSome (hl : HandlerList H) (st : H2State)
    (ev : Event B) (S : Nat) (hev : ∀ d : B, ev ≠ Event.dataReceived S d)
    (h : (dictLookup st.reqs_waiting_upload S).isSome) :
    (dictLookup (processEvent hl st ev).1.reqs_waiting_upload S).isSome := by
  cases ev with
  | requestReceived sid raw =>
    by_cases h1 : (dictLookup (orderedDictOf raw) ":method").getD ""
        ∈ (["GET", "DELETE"] : List String)
    · simpa [processEvent, h1] using h
    · by_cases h2 : (dictLookup (orderedDictOf raw) ":method").getD ""
          ∈ (["PUT", "POST"] : List String)
      · by_cases hS : S = sid
        · simp [processEvent, h1, h2, dictLookup_insert, hS]
        · simpa [processEvent, h1, h2, dictLookup_insert, hS] using h
      · simpa [processEvent, h1, h2] using h
  | dataReceived sid d =>
    have hS : S ≠ sid := fun hh => (hev d) (by rw [hh])
    have hne : eventStream (Event.dataReceived sid d : Event B) ≠ some S := by
      simp only [eventStream, Ne, Option.some.injEq]
      exact fun hh => hS hh.symm
    rw [processEvent_lookup_of_other_stream hl st _ S hne]
    exact h
  | remoteSettingsChanged => simpa [processEvent] using h

lemma processEvent_action_stream (hl : HandlerList H) (st : H2State)
    (ev : Event B) (a : Action H B) (ha : a ∈ (processEvent hl st ev).2) :
    actionStream a = none ∨ actionStream a = eventStream ev := by
  cases ev with
  | requestReceived sid raw =>
    by_cases h1 : (dictLookup (orderedDictOf raw) ":method").getD ""
        ∈ (["GET", "DELETE"] : List String)
    · cases hg : HandlerList.get_handler hl
          ((dictLookup (orderedDictOf raw) ":method").getD "")
          (url_path_of ((dictLookup (orderedDictOf raw) ":path").getD "")) with
      | none => simp [processEvent, handle_get_delete, h1, hg] at ha
      | some hh =>
        simp [processEvent, handle_get_delete, h1, hg] at ha
        subst ha
        exact Or.inr rfl
    · by_cases h2 : (dictLookup (orderedDictOf raw) ":method").getD ""
          ∈ (["PUT", "POST"] : List String)
      · simp [processEvent, h1, h2] at ha
      · simp [processEvent, h1, h2] at ha
        subst ha
        exact Or.inl rfl
  | dataReceived sid d =>
    have ha2 : a ∈ (http_handle_upload hl st d sid).2 := ha
    cases hpop : dictPop st.reqs_waiting_upload sid with
    | none => simp [http_handle_upload, hpop] at ha2
    | some vd =>
      obtain ⟨hdrs, rest⟩ := vd
      cases hg : hl.get_handler ((dictLookup hdrs ":method").getD "")
          (url_path_of ((dictLookup hdrs ":path").getD "")) with
      | none => simp [http_handle_upload, hpop, hg] at ha2
      | some hh =>
        simp [http_handle_upload, hpop, hg] at ha2
        subst ha2
        exact Or.inr rfl
  | remoteSettingsChanged => simp [processEvent] at ha

lemma data_received_acc (hl : HandlerList H) (evs : List (Event B))
    (st : H2State) (acc : List (Action H B)) :
    List.foldl
        (fun acc ev => ((processEvent hl acc.1 ev).1, acc.2 ++ (processEvent hl acc.1 ev).2))
        (st, acc) evs
      = ((data_received hl st evs).1, acc ++ (data_received hl st evs).2) := by
  induction evs generalizing st acc with
  | nil => simp [data_received]
  | cons ev evs ih =>
    have hcons : data_received hl st (ev :: evs)
        = List.foldl
            (fun acc ev => ((processEvent hl acc.1 ev).1, acc.2 ++ (processEvent hl acc.1 ev).2))
            ((processEvent hl st ev).1, (processEvent hl st ev).2) evs := rfl
    rw [List.foldl_cons]
    rw [ih, hcons, ih]
    simp [List.append_assoc]

lemma data_received_cons (hl : HandlerList H) (st : H2State) (ev : Event B)
    (evs : List (Event B)) :
    data_received hl st (ev :: evs)
      = ((data_received hl (processEvent hl st ev).1 evs).1,
         (processEvent hl st ev).2
           ++ (data_received hl (processEvent hl st ev).1 evs).2) := by
  have hcons : data_received hl st (ev :: evs)
      = List.foldl
          (fun acc ev => ((processEvent hl acc.1 ev).1, acc.2 ++ (processEvent hl acc.1 ev).2))
          ((processEvent hl st ev).1, (processEvent hl st ev).2) evs := rfl
  rw [hcons, data_received_acc]

lemma data_received_singleton (hl : HandlerList H) (s : H2State) (e : Event B) :
    data_received hl s [e] = processEvent hl s e := by
  rw [data_received_cons]
  simp [data_received]

lemma data_received_append (hl : HandlerList H) (st : H2State)
    (l1 l2 : List (Event B)) :
    data_received hl st (l1 ++ l2)
      = ((data_received hl (data_received hl st l1).1 l2).1,
         (data_received hl st l1).2
           ++ (data_received hl (data_received hl st l1).1 l2).2) := by
  have h1 : data_received hl st (l1 ++ l2)
      = List.foldl
          (fun acc ev => ((processEvent hl acc.1 ev).1, acc.2 ++ (processEvent hl acc.1 ev).2))
          (data_received hl st l1) l2 := by
    show List.foldl _ (st, ([] : List (Action H B))) (l1 ++ l2) = _
    rw [List.foldl_append]
    rfl
  rw [h1]
  exact data_received_acc hl l2 (data_received hl st l1).1 (data_received hl st l1).2

lemma data_received_other_streams (hl : HandlerList H) (evs : List (Event B))
    (S : Nat) (hev : ∀ e ∈ evs, eventStream e ≠ some S) (st : H2State) :
    dictLookup (data_received hl st evs).1.reqs_waiting_upload S
        = dictLookup st.reqs_waiting_upload S
      ∧ ∀ a ∈ (data_received hl st evs).2, actionStream a ≠ some S := by
  induction evs generalizing st with
  | nil => simp [data_received]
  | cons ev evs ih =>
    have hev0 : eventStream ev ≠ some S := hev ev (List.mem_cons_self ev evs)
    have hevs : ∀ e ∈ evs, eventStream e ≠ some S :=
      fun e he => hev e (List.mem_cons_of_mem ev he)
    obtain ⟨ih1, ih2⟩ := ih hevs ((processEvent hl st ev).1)
    rw [data_received_cons]
    constructor
    · rw [ih1, processEvent_lookup_of_other_stream hl st ev S hev0]
    · intro a ha
      simp only [List.mem_append] at ha
      rcases ha with ha | ha
      · rcases processEvent_action_stream hl st ev a ha with hn | hn
        · rw [hn]; simp
        · rw [hn]; exact hev0
      · exact ih2 a ha

lemma data_received_keep_pending (hl : HandlerList H) (evs : List (Event B))
    (S : Nat) (hev : ∀ d : B, Event.dataReceived S d ∉ evs) (st : H2State)
    (h : (dictLookup st.reqs_waiting_upload S).isSome) :
    (dictLookup (data_received hl st evs).1.reqs_waiting_upload S).isSome := by
  induction evs generalizing st with
  | nil => simpa [data_received] using h
  | cons ev evs ih =>
    have hev0 : ∀ d : B, ev ≠ Event.dataReceived S d :=
      fun d hh => hev d (hh ▸ List.mem_cons_self ev evs)
    have hevs : ∀ d : B, Event.dataReceived S d ∉ evs :=
      fun d hd => hev d (List.mem_cons_of_mem ev hd)
    have hstep := processEvent_pending_isSome hl st ev S hev0 h
    have := ih hevs ((processEvent hl st ev).1) hstep
    rw [data_received_cons]
    exact this

lemma handlers_foldl_register (regs : List (HandlerCondition × H)) :
    ∀ t : HandlerList H,
      (List.foldl (fun t r => t.register_handler r.1 r.2) t regs).handlers
          = t.handlers ++ regs
        ∧ (List.foldl (fun t r => t.register_handler r.1 r.2) t regs).default_handler
          = t.default_handler := by
  induction regs with
  | nil => intro t; simp
  | cons r regs ih =>
    intro t
    rw [List.foldl_cons]
    obtain ⟨h1, h2⟩ := ih (t.register_handler r.1 r.2)
    refine ⟨?_, ?_⟩
    · rw [h1]; simp [HandlerList.register_handler]
    · rw [h2]; rfl

end ProtocolLemmas

/-! ### Claims -/

/-- C1: for every route table and every (method, path), if more than
one registered predicate returns true for that (method, path), then
`get_handler` returns the handler of the entry that was registered
earliest among the matching entries; evaluation order equals
registration order (registering appends, and the scan takes the first
match in list order). -/
theorem claim1_earliest_match_wins {H : Type} (dh : Option H)
    (regs : List (HandlerCondition × H)) (m p : String) (i : Nat)
    (hi : i < regs.length)
    (hmatch : (regs.get ⟨i, hi⟩).1 m p = true)
    (hearliest : ∀ j (hj : j < i), (regs.get ⟨j, Nat.lt_trans hj hi⟩).1 m p = false) :
    (List.foldl (fun t r => t.register_handler r.1 r.2)
        (⟨[], dh⟩ : HandlerList H) regs).get_handler m p
      = some (regs.get ⟨i, hi⟩).2 := by
  obtain ⟨hh, _⟩ := handlers_foldl_register regs ⟨[], dh⟩
  have hfind : (List.foldl (fun t r => t.register_handler r.1 r.2)
        (⟨[], dh⟩ : HandlerList H) regs).handlers.find? (fun e => e.1 m p)
      = some (regs.get ⟨i, hi⟩) := by
    rw [hh]
    simp only [List.nil_append]
    exact find?_eq_get_of_first regs (fun e => e.1 m p) i hi hmatch hearliest
  simp [HandlerList.get_handler, hfind]

/-- C1 witness: two predicates both match (GET, "/a"); the earliest
registered handler (1) is returned. -/
theorem claim1_witness :
    (List.foldl (fun t r => t.register_handler r.1 r.2)
        (⟨[], none⟩ : HandlerList Nat)
        [(fun _ p => p == "/a", 1), (fun _ p => p == "/a", 2)]).get_handler
        "GET" "/a"
      = some 1 :=
  claim1_earliest_match_wins none
    [(fun _ p => p == "/a", 1), (fun _ p => p == "/a", 2)] "GET" "/a" 0
    (by decide) (by decide) (fun j hj => absurd hj (Nat.not_lt_zero j))

/-- C2: when no registered predicate matches, `get_handler` returns the
default handler field: `some dh` when a default was registered, `none`
when none ever was; and in the `none` case `http_handle_upload` invokes
nothing (no actions are recorded, the request is dropped). -/
theorem claim2_no_match_default {H B : Type} (hl : HandlerList H) (dh : H)
    (m p : String) (st : H2State) (d : B) (S : Nat) (hdrs : Headers)
    (rest : List (Nat × Headers))
    (hno : ∀ e ∈ hl.handlers, e.1 m p = false)
    (hpop : dictPop st.reqs_waiting_upload S = some (hdrs, rest))
    (hm : (dictLookup hdrs ":method").getD "" = m)
    (hp2 : url_path_of ((dictLookup hdrs ":path").getD "") = p)
    (hd : hl.default_handler = none) :
    hl.get_handler m p = hl.default_handler
      ∧ (hl.register_default_handler dh).get_handler m p = some dh
      ∧ http_handle_upload hl st d S = (⟨rest⟩, []) := by
  have hfind : hl.handlers.find? (fun e => e.1 m p) = none :=
    List.find?_eq_none.mpr (fun x hx => by simp [hno x hx])
  refine ⟨?_, ?_, ?_⟩
  · simp [HandlerList.get_handler, hfind]
  · simp [HandlerList.get_handler, HandlerList.register_default_handler, hfind]
  · have hg : hl.get_handler m p = none := by
      simp [HandlerList.get_handler, hfind, hd]
    rw [← hm, ← hp2] at hg
    simp [http_handle_upload, hpop, hg]

/-- C2 witness: a table with one non-matching predicate and no default;
resolution yields `none` and the pending upload is dropped without any
action. -/
theorem claim2_witness :
    (⟨[(fun _ q => q == "/x", 7)], none⟩ : HandlerList Nat).get_handler "GET" "/y"
        = (⟨[(fun _ q => q == "/x", 7)], none⟩ : HandlerList Nat).default_handler
      ∧ ((⟨[(fun _ q => q == "/x", 7)], none⟩ : HandlerList Nat).register_default_handler
          3).get_handler "GET" "/y" = some 3
      ∧ http_handle_upload (⟨[(fun _ q => q == "/x", 7)], none⟩ : HandlerList Nat)
          ⟨[(0, [(":method", "GET"), (":path", "/y?q=1")])]⟩ (6 : Nat) 0
        = (⟨[]⟩, []) :=
  claim2_no_match_default (⟨[(fun _ q => q == "/x", 7)], none⟩ : HandlerList Nat)
    3 "GET" "/y" ⟨[(0, [(":method", "GET"), (":path", "/y?q=1")])]⟩ (6 : Nat) 0
    [(":method", "GET"), (":path", "/y?q=1")] []
    (by
      intro e he
      rw [List.mem_singleton] at he
      subst he
      decide)
    (by decide) (by decide) (by decide) rfl

/-- C3: a PUT/POST request-headers event for stream S, followed (with
arbitrary other-stream events in between) by exactly one body-data
event for S, makes the resolved handler the unique action dispatched
for S, with body exactly that event's bytes. -/
theorem claim3_single_body_dispatch {H B : Type} (hl : HandlerList H)
    (st : H2State) (S : Nat) (raw : List (String × String))
    (evs : List (Event B)) (d : B) (h : H)
    (hm : (dictLookup (orderedDictOf raw) ":method").getD ""
      ∈ (["PUT", "POST"] : List String))
    (hmid : ∀ e ∈ evs, eventStream e ≠ some S)
    (hh : hl.get_handler ((dictLookup (orderedDictOf raw) ":method").getD "")
        (url_path_of ((dictLookup (orderedDictOf raw) ":path").getD ""))
      = some h) :
    ((data_received hl st
        (Event.requestReceived S raw :: evs ++ [Event.dataReceived S d])).2).filter
        (fun a => actionStream a == some S)
      = [Action.dispatchBody h (orderedDictOf raw) d S] := by
  rw [List.cons_append, data_received_cons, processEvent_put_post hl st S raw hm]
  obtain ⟨hlook, hacts⟩ := data_received_other_streams hl evs S hmid
    ⟨dictInsert st.reqs_waiting_upload S (orderedDictOf raw)⟩
  have hlook2 : dictLookup
      (data_received hl
        (⟨dictInsert st.reqs_waiting_upload S (orderedDictOf raw)⟩ : H2State)
        evs).1.reqs_waiting_upload S
      = some (orderedDictOf raw) := by
    rw [hlook]
    simp [dictLookup_insert]
  obtain ⟨rest, hpop⟩ := dictPop_of_lookup hlook2
  rw [data_received_append, data_received_singleton]
  have hfin : processEvent hl
      (data_received hl
        (⟨dictInsert st.reqs_waiting_upload S (orderedDictOf raw)⟩ : H2State)
        evs).1 (Event.dataReceived S d)
      = (⟨rest⟩, [Action.dispatchBody h (orderedDictOf raw) d S]) := by
    show http_handle_upload hl _ d S = _
    simp only [http_handle_upload, hpop, hh]
  rw [hfin]
  have hmidfilter : ((data_received hl
      (⟨dictInsert st.reqs_waiting_upload S (orderedDictOf raw)⟩ : H2State)
      evs).2).filter (fun a => actionStream a == some S) = [] := by
    rw [List.filter_eq_nil_iff]
    intro a ha
    have := hacts a ha
    simp [this]
  simp only [List.nil_append, List.filter_append, hmidfilter]
  simp [actionStream]

/-- C3 witness: a POST header for stream 2 with no events in between,
then its body; the default handler 4 is dispatched once with that
body. -/
theorem claim3_witness :
    ((data_received (⟨[], some 4⟩ : HandlerList Nat) ⟨[]⟩
        (Event.requestReceived 2 [(":method", "POST"), (":path", "/p?x")]
          :: ([] : List (Event Nat))
          ++ [Event.dataReceived 2 9])).2).filter
        (fun a => actionStream a == some 2)
      = [Action.dispatchBody 4
          (orderedDictOf [(":method", "POST"), (":path", "/p?x")]) 9 2] :=
  claim3_single_body_dispatch (⟨[], some 4⟩ : HandlerList Nat) ⟨[]⟩ 2
    [(":method", "POST"), (":path", "/p?x")] [] 9 4
    (by decide)
    (fun e he => absurd he (List.not_mem_nil e))
    (by decide)

/-- C4: a body-data event for a stream with no pending entry is a
no-op: same state, no actions, no error. -/
theorem claim4_no_entry_noop {H B : Type} (hl : HandlerList H) (st : H2State)
    (S : Nat) (d : B) (h : dictLookup st.reqs_waiting_upload S = none) :
    http_handle_upload hl st d S = (st, []) :=
  upload_no_entry hl st d S h

/-- C4 witness: body data for stream 5 with an empty pending map. -/
theorem claim4_witness :
    http_handle_upload (⟨[], none⟩ : HandlerList Nat) ⟨[]⟩ (0 : Nat) 5
      = (⟨[]⟩, []) :=
  claim4_no_entry_noop (⟨[], none⟩ : HandlerList Nat) ⟨[]⟩ 5 (0 : Nat) rfl

/-- C5: the path used for route matching is the part of the `:path`
pseudo-header before the first `?` (it contains no `?` and the header
is it, or it extended by `?` and the query); in particular the request
path `/api/data/x?y=1` reaches an equality predicate against
`/api/data/x` and matches, through the real upload dispatch path. -/
theorem claim5_query_stripped (H B : Type) :
    (∀ s : String, '?' ∉ (url_path_of s).data
        ∧ (s.data = (url_path_of s).data
            ∨ ∃ r, s.data = (url_path_of s).data ++ '?' :: r))
      ∧ ∀ (h0 : H) (d : B) (S : Nat),
          (http_handle_upload
              (⟨[(fun _ p => p == "/api/data/x", h0)], none⟩ : HandlerList H)
              ⟨[(S, [(":method", "PUT"), (":path", "/api/data/x?y=1")])]⟩
              d S).2
            = [Action.dispatchBody h0
                [(":method", "PUT"), (":path", "/api/data/x?y=1")] d S] := by
  constructor
  · intro s
    have hsp := pySplit_headI_spec '?' s.data
    rw [url_path_of_data]
    exact hsp
  · intro h0 d S
    have hpop : dictPop [(S, [(":method", "PUT"), (":path", "/api/data/x?y=1")])] S
        = some ([(":method", "PUT"), (":path", "/api/data/x?y=1")], []) := by
      simp [dictPop]
    have hlookm : dictLookup
        [(":method", "PUT"), (":path", "/api/data/x?y=1")] ":method"
        = some "PUT" := by decide
    have hlookp : dictLookup
        [(":method", "PUT"), (":path", "/api/data/x?y=1")] ":path"
        = some "/api/data/x?y=1" := by decide
    have hup : url_path_of "/api/data/x?y=1" = "/api/data/x" := by decide
    have hfind : ([((fun _ p => p == "/api/data/x" : HandlerCondition), h0)]).find?
        (fun e => e.1 "PUT" "/api/data/x")
        = some ((fun _ p => p == "/api/data/x" : HandlerCondition), h0) :=
      List.find?_cons_of_pos _ (by
        show (("/api/data/x" : String) == "/api/data/x") = true
        decide)
    have hg : (⟨[(fun _ p => p == "/api/data/x", h0)], none⟩ : HandlerList H).get_handler
        "PUT" "/api/data/x" = some h0 := by
      simp [HandlerList.get_handler, hfind]
    simp [http_handle_upload, hpop, hlookm, hlookp, hup, hg]

/-- C6: request headers with an unsupported method only log a warning:
the session state is unchanged (no pending entry is added), no handler
is invoked, no other action is taken. -/
theorem claim6_unknown_method {H B : Type} (hl : HandlerList H) (st : H2State)
    (S : Nat) (raw : List (String × String)) (m : String)
    (hmeth : dictLookup (orderedDictOf raw) ":method" = some m)
    (hm : m ∉ (["GET", "DELETE", "PUT", "POST"] : List String)) :
    processEvent hl st (Event.requestReceived S raw : Event B)
      = (st, [Action.warning m]) := by
  have h1 : m ∉ (["GET", "DELETE"] : List String) := by
    intro hc
    apply hm
    simp only [List.mem_cons, List.mem_singleton, List.not_mem_nil, or_false] at hc ⊢
    tauto
  have h2 : m ∉ (["PUT", "POST"] : List String) := by
    intro hc
    apply hm
    simp only [List.mem_cons, List.mem_singleton, List.not_mem_nil, or_false] at hc ⊢
    tauto
  simp [processEvent, hmeth, h1, h2]

/-- C6 witness: a PATCH request is dropped with only a warning. -/
theorem claim6_witness :
    processEvent (⟨[], none⟩ : HandlerList Nat) ⟨[]⟩
        (Event.requestReceived 0 [(":method", "PATCH"), (":path", "/z")] : Event Nat)
      = (⟨[]⟩, [Action.warning "PATCH"]) :=
  claim6_unknown_method (⟨[], none⟩ : HandlerList Nat) ⟨[]⟩ 0
    [(":method", "PATCH"), (":path", "/z")] "PATCH" (by decide) (by decide)

/-- C7: the header mapping built by `OrderedDict(event.headers)` binds
each name to the value of its last occurrence in the raw header list
(the first match in the reversed list). -/
theorem claim7_last_occurrence_wins (l : List (String × String)) (k : String) :
    dictLookup (orderedDictOf l) k
      = (l.reverse.find? (fun q => q.1 == k)).map Prod.snd := by
  induction l using List.reverseRecOn with
  | nil => simp [orderedDictOf, dictLookup]
  | append_singleton l p ih =>
    rw [orderedDictOf_concat, dictLookup_insert, List.reverse_append]
    simp only [List.reverse_singleton, List.singleton_append, List.find?_cons]
    by_cases h : p.1 = k
    · simp [h, if_pos h.symm]
    · have h2 : ¬ k = p.1 := fun hh => h hh.symm
      have hb : (p.1 == k) = false := by simp [h]
      simp [h, h2, ih, hb]

/-- C8: a PUT/POST header event for stream S stores the headers without
dispatching anything, and as long as no body-data event for S arrives,
the pending entry for S survives any further processing. -/
theorem claim8_pending_leak {H B : Type} (hl : HandlerList H) (st : H2State)
    (S : Nat) (raw : List (String × String)) (evs : List (Event B))
    (hm : (dictLookup (orderedDictOf raw) ":method").getD ""
      ∈ (["PUT", "POST"] : List String))
    (hnb : ∀ d : B, Event.dataReceived S d ∉ evs) :
    processEvent hl st (Event.requestReceived S raw : Event B)
        = (⟨dictInsert st.reqs_waiting_upload S (orderedDictOf raw)⟩, [])
      ∧ (dictLookup
          (data_received hl
            (⟨dictInsert st.reqs_waiting_upload S (orderedDictOf raw)⟩ : H2State)
            evs).1.reqs_waiting_upload S).isSome = true := by
  refine ⟨processEvent_put_post hl st S raw hm, ?_⟩
  apply data_received_keep_pending hl evs S hnb
  simp [dictLookup_insert]

/-- C8 witness: a PUT header for stream 1, followed by a GET on another
stream and a settings event; the pending entry for stream 1 remains. -/
theorem claim8_witness :
    processEvent (⟨[], none⟩ : HandlerList Nat) ⟨[]⟩
        (Event.requestReceived 1 [(":method", "PUT"), (":path", "/p")] : Event Nat)
        = (⟨dictInsert [] 1
            (orderedDictOf [(":method", "PUT"), (":path", "/p")])⟩, [])
      ∧ (dictLookup
          (data_received (⟨[], none⟩ : HandlerList Nat)
            (⟨dictInsert [] 1
              (orderedDictOf [(":method", "PUT"), (":path", "/p")])⟩ : H2State)
            [(Event.remoteSettingsChanged : Event Nat)]).1.reqs_waiting_upload
          1).isSome = true :=
  claim8_pending_leak (⟨[], none⟩ : HandlerList Nat) ⟨[]⟩ 1
    [(":method", "PUT"), (":path", "/p")]
    [(Event.remoteSettingsChanged : Event Nat)] (by decide)
    (by intro d hd; simp at hd)

/-- C9: a body-data event for a pending stream removes the pending
entry before route resolution: even when resolution fails, the entry is
consumed, nothing is dispatched, and a second body-data event for the
same stream is a no-op. -/
theorem claim9_consumed_before_resolution {H B : Type} (hl : HandlerList H)
    (st : H2State) (S : Nat) (hdrs : Headers) (rest : List (Nat × Headers))
    (d d2 : B)
    (hnd : (st.reqs_waiting_upload.map Prod.fst).Nodup)
    (hpop : dictPop st.reqs_waiting_upload S = some (hdrs, rest))
    (hnone : hl.get_handler ((dictLookup hdrs ":method").getD "")
        (url_path_of ((dictLookup hdrs ":path").getD "")) = none) :
    http_handle_upload hl st d S = (⟨rest⟩, [])
      ∧ dictLookup rest S = none
      ∧ http_handle_upload hl (⟨rest⟩ : H2State) d2 S = (⟨rest⟩, []) := by
  have hgone : dictLookup rest S = none := dictPop_lookup_self hnd hpop
  refine ⟨?_, hgone, upload_no_entry hl ⟨rest⟩ d2 S hgone⟩
  simp [http_handle_upload, hpop, hnone]

/-- C9 witness: a pending PUT for stream 0 on an empty table (no
default): its body event consumes the entry without dispatch, and a
second body event is a no-op. -/
theorem claim9_witness :
    http_handle_upload (⟨[], none⟩ : HandlerList Nat)
        ⟨[(0, [(":method", "PUT"), (":path", "/p")])]⟩ (8 : Nat) 0
        = (⟨[]⟩, [])
      ∧ dictLookup ([] : List (Nat × Headers)) 0 = none
      ∧ http_handle_upload (⟨[], none⟩ : HandlerList Nat) ⟨[]⟩ (7 : Nat) 0
        = (⟨[]⟩, []) :=
  claim9_consumed_before_resolution (⟨[], none⟩ : HandlerList Nat)
    ⟨[(0, [(":method", "PUT"), (":path", "/p")])]⟩ 0
    [(":method", "PUT"), (":path", "/p")] [] (8 : Nat) (7 : Nat)
    (by decide) (by decide) (by decide)

/-- C10: a second PUT/POST header event for a stream that already has a
pending entry silently overwrites the stored headers (no action is
recorded), and the map still holds at most one entry for that
stream. -/
theorem claim10_header_overwrite {H B : Type} (hl : HandlerList H)
    (st : H2State) (S : Nat) (old : Headers) (raw2 : List (String × String))
    (hnd : (st.reqs_waiting_upload.map Prod.fst).Nodup)
    (hpend : dictLookup st.reqs_waiting_upload S = some old)
    (hm : (dictLookup (orderedDictOf raw2) ":method").getD ""
      ∈ (["PUT", "POST"] : List String)) :
    dictLookup
        (processEvent hl st
          (Event.requestReceived S raw2 : Event B)).1.reqs_waiting_upload S
        = some (orderedDictOf raw2)
      ∧ (processEvent hl st (Event.requestReceived S raw2 : Event B)).2 = []
      ∧ (((processEvent hl st
            (Event.requestReceived S raw2 : Event B)).1.reqs_waiting_upload.map
              Prod.fst).count S) ≤ 1 := by
  rw [processEvent_put_post hl st S raw2 hm]
  refine ⟨by simp [dictLookup_insert], rfl, ?_⟩
  have hnd2 := keys_nodup_dictInsert S (orderedDictOf raw2) hnd
  exact (List.nodup_iff_count_le_one.mp hnd2) S

/-- C10 witness: stream 3 already pending with a PUT; a POST header
event for stream 3 overwrites it, silently, leaving one entry. -/
theorem claim10_witness :
    dictLookup
        (processEvent (⟨[], none⟩ : HandlerList Nat)
          ⟨[(3, [(":method", "PUT"), (":path", "/a")])]⟩
          (Event.requestReceived 3 [(":method", "POST"), (":path", "/b")]
            : Event Nat)).1.reqs_waiting_upload 3
        = some (orderedDictOf [(":method", "POST"), (":path", "/b")])
      ∧ (processEvent (⟨[], none⟩ : HandlerList Nat)
          ⟨[(3, [(":method", "PUT"), (":path", "/a")])]⟩
          (Event.requestReceived 3 [(":method", "POST"), (":path", "/b")]
            : Event Nat)).2 = []
      ∧ (((processEvent (⟨[], none⟩ : HandlerList Nat)
            ⟨[(3, [(":method", "PUT"), (":path", "/a")])]⟩
            (Event.requestReceived 3 [(":method", "POST"), (":path", "/b")]
              : Event Nat)).1.reqs_waiting_upload.map Prod.fst).count 3) ≤ 1 :=
  claim10_header_overwrite (⟨[], none⟩ : HandlerList Nat)
    ⟨[(3, [(":method", "PUT"), (":path", "/a")])]⟩ 3
    [(":method", "PUT"), (":path", "/a")]
    [(":method", "POST"), (":path", "/b")]
    (by decide) (by decide) (by decide)

end Jetconf
